import Mathlib

/-!
# Verification of the veles sound_feature_extraction transform-pipeline core

Shallow embedding, in Lean 4, of the parts of the repository that the
specification's testable properties talk about:

* `BufferFormat` equality / inequality and sampling-rate validation
  (`src/buffer_format.cc`);
* `BuffersBase::Initialize` single-initialization discipline
  (`src/buffers_base.h`);
* the format-negotiation hooks of `Beat`, `FilterBank`, `RDFT` and
  `RDFTInverse` (`src/transforms/beat.cc`, `filter_bank.cc`, `rdft.cc`);
* the parameter setters of `Beat` ("max_peaks") and `Mean` ("types")
  (`src/transforms/beat.cc`, `mean.cc`);
* the scalar difference kernels of `Diff` (`src/transforms/diff.cc`);
* the no-peaks fallback branch of `Beat::Do` (`src/transforms/beat.cc`);
* the non-blocking scratch-pool acquisition protocol shared by
  `Diff::Do` and `FilterBank::Do`.

Machine `float` values are modelled as rationals (`ℚ`): every claim below
is about the data-flow structure of the kernels (which element is combined
with which, what is clamped, what is zeroed), not about rounding, and the
concrete counterexamples are chosen so that every intermediate value is
exactly representable in binary32, keeping them faithful to the C++.
`size_t` arithmetic is modelled as `Nat` with explicit reduction modulo
`2 ^ 64` where wrap-around matters.
-/

namespace SoundFeatureExtraction

/-! ## BufferFormat (`src/buffer_format.cc`) -/

/-- Modelled from the spec: the reserved wildcard ("identity") id token.
Its literal spelling lives in `src/buffer_format.h`, which is not among the
available sources; every theorem below is independent of the spelling. -/
def kIdentityID : String := "identity"

/-- `BufferFormat`: element-type id plus sampling rate
(`src/buffer_format.h` data members `id_`, `samplingRate_`). -/
structure BufferFormat where
  id : String
  samplingRate : Int
deriving Repr, DecidableEq

namespace BufferFormat

/-- `BufferFormat::operator==` (buffer_format.cc:53-55):
`id_ == kIdentityID || other.id_ == kIdentityID || id_ == other.id_`. -/
def beq (a b : BufferFormat) : Bool :=
  a.id == kIdentityID || b.id == kIdentityID || a.id == b.id

/-- `BufferFormat::operator!=` (buffer_format.cc:57-59):
`id_ != other.id_ && id_ != kIdentityID && other.id_ != kIdentityID`. -/
def bne (a b : BufferFormat) : Bool :=
  a.id != b.id && a.id != kIdentityID && b.id != kIdentityID

/-- `BufferFormat::ValidateSamplingRate` (buffer_format.cc:79-83): throws
`InvalidSamplingRateException` iff the value lies outside
`[kMinSamplingRate, kMaxSamplingRate]`.  The two bounds are declared in
`src/config.h` / `src/buffer_format.h` (not among the sources), so the model
is parameterized over them. -/
def validateSamplingRate (kMin kMax v : Int) : Except Int Unit :=
  if v < kMin || v > kMax then .error v else .ok ()

/-- `BufferFormat::SetSamplingRate` (buffer_format.cc:74-77): first
`ValidateSamplingRate(value)` (which may throw), then `samplingRate_ = value`.
An escaping exception carries the object state at unwind time, so that
"no mutation before the throw" is an observable property of the model and
not an artifact of purity. -/
def setSamplingRate (kMin kMax : Int) (f : BufferFormat) (v : Int) :
    Except (Int × BufferFormat) BufferFormat :=
  match validateSamplingRate kMin kMax v with
  | .error e => .error (e, f)
  | .ok _ => .ok { f with samplingRate := v }

end BufferFormat

/-! ## BuffersBase (`src/buffers_base.h`) -/

/-- The observable state of a `BuffersBase<T>` container: its element count
(`Buffers::SetSize`) and the `initialized_` flag (buffers_base.h:201). -/
structure BuffersBase where
  size : Nat
  initialized : Bool
deriving Repr, DecidableEq

namespace BuffersBase

/-- A freshly constructed container (buffers_base.h:169-173):
size 0, not yet initialized. -/
def new : BuffersBase := { size := 0, initialized := false }

/-- `BuffersBase::Initialize` (buffers_base.h:175-183):
`assert(!initialized_ && "Already initialized")`, then `SetSize(size)` and
mark initialized.  The assertion firing is modelled as `Except.error`. -/
def initOnce (b : BuffersBase) (size : Nat) : Except String BuffersBase :=
  if b.initialized then .error "Already initialized"
  else .ok { size := size, initialized := true }

end BuffersBase

/-! ## Beat negotiation (`src/transforms/beat.cc`) -/

/-- The parameter fields of `Beat` that its setters touch
(beat.cc:23-32). -/
structure BeatState where
  bands : Int
  pulses : Int
  min_bpm : Int
  max_bpm : Int
  step1 : Int
  step2 : Int
  peaks : Int
  debug : Bool
deriving Repr, DecidableEq

namespace BeatState

/-- `Beat::Beat` default member initialization (beat.cc:23-32), with the
default constants `kDefaultPulses = 3`, `kDefaultMinBPM = 60`,
`kDefaultMaxBPM = 240`, `kDefaultResolution1 = 2`, `kDefaultResolution2 = 1`,
`kDefaultPeaks = 3` taken from `src/transforms/beat.h` (not among the
sources; the theorems below never depend on these values). -/
def default : BeatState :=
  { bands := 1, pulses := 3, min_bpm := 60, max_bpm := 240,
    step1 := 2, step2 := 1, peaks := 3, debug := false }

/-- `Beat::OnInputFormatChanged` (beat.cc:99-102):
`outputFormat_->SetSize(peaks_); return buffersCount / bands_;`.
Returns (new output element size, returned output buffer count);
`buffersCount` is a `size_t`, `bands_` a positive `int`, so the division is
the C++ unsigned integer division, i.e. `Nat` division. -/
def onInputFormatChanged (s : BeatState) (buffersCount : Nat) : Nat × Nat :=
  (s.peaks.toNat, buffersCount / s.bands.toNat)

end BeatState

/-! ## Diff scalar kernels (`src/transforms/diff.cc`)

A C array is modelled as a function `ℕ → ℚ`; the kernels only ever read
indices `< length`, and the output is characterized at indices
`< length`. -/

namespace Diff

/-- The scalar (non-SIMD) branch of `Diff::Do(bool, const float*, int, float*)`
(diff.cc:107-111): `output[i] = input[i+1] - input[i]` for
`0 ≤ i < length - 1`, then `output[length-1] = input[0] - input[length-1]`. -/
def doScalar (input : ℕ → ℚ) (length : ℕ) (i : ℕ) : ℚ :=
  if i < length - 1 then input (i + 1) - input i
  else input 0 - input (length - 1)

/-- The scalar (non-SIMD) branch of `Diff::DoRectify` (diff.cc:150-158):
the same differences, with each negative result replaced by `0`
(`if (output[i] < 0) output[i] = 0;` and `last < 0 ? 0 : last`). -/
def doRectifyScalar (input : ℕ → ℚ) (length : ℕ) (i : ℕ) : ℚ :=
  if i < length - 1 then
    let d := input (i + 1) - input i
    if d < 0 then 0 else d
  else
    let last := input 0 - input (length - 1)
    if last < 0 then 0 else last

end Diff

/-! ## Beat "max_peaks" setter and Mean "types" setter
(`src/transforms/beat.cc`, `src/transforms/mean.cc`) -/

/-- Digit-list accumulator for `parseInt`. -/
def parseDigitsAux : List Char → Nat → Option Nat
  | [], acc => some acc
  | c :: rest, acc =>
    if c.isDigit then parseDigitsAux rest (acc * 10 + (c.toNat - '0'.toNat))
    else none

/-- Modelled from the spec: `Parse<int>` (the "integer" textual parser of
§4.3, declared in `src/parameterizable.h` which is not among the sources)
parses the decimal string and throws `InvalidParameterValueException` on
failure, modelled as `none`. -/
def parseInt (value : String) : Option Int :=
  match value.toList with
  | [] => none
  | '-' :: rest =>
    if rest.isEmpty then none
    else (parseDigitsAux rest 0).map (fun n => -(n : Int))
  | l => (parseDigitsAux l 0).map (fun n => (n : Int))

/-- The `"max_peaks"` setter registered by `Beat::Beat` (beat.cc:81-88):
`int iv = Parse<int>("max_peaks", value); if (iv < 1 || iv > 10) return
false; peaks_ = iv; return true;`.  A parse failure escapes as an exception
carrying the object state at unwind time; a validator rejection returns
`(false, state)`; success returns `(true, updated state)`. -/
def beatSetMaxPeaks (s : BeatState) (value : String) :
    Except (String × BeatState) (Bool × BeatState) :=
  match parseInt value with
  | none => .error (value, s)
  | some iv =>
    if iv < 1 || iv > 10 then .ok (false, s)
    else .ok (true, { s with peaks := iv })

/-- `MeanTypes` (the two computable mean kinds of `src/transforms/mean.h`). -/
inductive MeanType where
  | arithmetic
  | geometric
deriving Repr, DecidableEq

/-- `Mean::MeanTypesMap` (mean.cc:30-33). -/
def meanTypesMap (token : String) : Option MeanType :=
  if token = "arithmetic" then some .arithmetic
  else if token = "geometric" then some .geometric
  else none

/-- The `types_` member of `Mean` (a `std::set<MeanTypes>`). -/
structure MeanState where
  types : Finset MeanType
deriving DecidableEq

/-- `Mean::kDefaultMeanTypes` (mean.cc:34): `{ MEAN_TYPE_ARITHMETIC }`. -/
def meanDefault : MeanState := ⟨{MeanType.arithmetic}⟩

/-- The whitespace characters matched by the regexes' `\s`. -/
def isSpaceChar (c : Char) : Bool :=
  c = ' ' || c = '\t' || c = '\n' || c = '\x0b' || c = '\x0c' || c = '\r'

/-- A `\w` word character: alphanumeric or underscore. -/
def isWordChar (c : Char) : Bool := c.isAlphanum || c = '_'

/-- Splits a character list at whitespace, accumulating the current token in
reverse; helper for `meanTokens`. -/
def meanTokensAux : List Char → List Char → List String
  | [], acc => if acc.isEmpty then [] else [String.mk acc.reverse]
  | c :: rest, acc =>
    if isSpaceChar c then
      if acc.isEmpty then meanTokensAux rest []
      else String.mk acc.reverse :: meanTokensAux rest []
    else meanTokensAux rest (c :: acc)

/-- The token sequence produced by the `boost::sregex_token_iterator` over
`\s*(\w+)\s*` (mean.cc:44-47): the maximal non-whitespace runs of the
string (which, whenever `allRegex` already matched, are exactly its `\w+`
runs). -/
def meanTokens (value : String) : List String :=
  meanTokensAux value.toList []

/-- `boost::regex_match(value, match, allRegex)` with
`allRegex = ^\s*(\w+\s*(\s|$))+` (mean.cc:39-43): the whole string is
whitespace-separated `\w+` tokens, at least one. -/
def meanAllRegexMatches (value : String) : Bool :=
  value.toList.all (fun c => isWordChar c || isSpaceChar c) &&
    !(meanTokens value).isEmpty

/-- The token loop of the `"types"` setter (mean.cc:49-55): look the token
up in `MeanTypesMap`; on a miss return `false` with the types inserted so
far left in place; on a hit insert into `types_` and continue. -/
def meanSetTypesLoop (s : MeanState) : List String → Bool × MeanState
  | [] => (true, s)
  | tok :: rest =>
    match meanTypesMap tok with
    | none => (false, s)
    | some t => meanSetTypesLoop ⟨insert t s.types⟩ rest

/-- The `"types"` setter registered by `Mean::Mean` (mean.cc:38-57). -/
def meanSetTypes (s : MeanState) (value : String) : Bool × MeanState :=
  if !meanAllRegexMatches value then (false, s)
  else meanSetTypesLoop s (meanTokens value)

/-- The mean types named by the longest prefix of a token list whose every
token is a known mean-type name. -/
def mappedPrefix (toks : List String) : List MeanType :=
  (toks.takeWhile (fun t => (meanTypesMap t).isSome)).filterMap meanTypesMap

/-! ## Beat::Do no-peaks branch (`src/transforms/beat.cc`)

`Beat::Do` iterates over the input in groups of `bands_` buffers
(beat.cc:143).  Per group it computes rough beat energies (CombConvolve +
`calculate_energy`, external numeric collaborators, modelled by the oracle
`secondPass` for the refined pass) and calls `detect_peaks` (an external
SIMD-library collaborator, modelled by the oracle `detected`; a null result
array is `none`). -/

/-- `ExtremumPoint` of the SIMD library (`simd/detect_peaks.h`). -/
structure ExtremumPoint where
  position : Int
  value : ℚ
deriving DecidableEq

/-- One group iteration of `Beat::Do` (beat.cc:143-197): on `none`
(`results == nullptr`, beat.cc:166-172) every one of the `peaks_` output
slots of the group is set to `(0, 0)`; otherwise the results are sorted by
descending value, the best `rcount = min(found, peaks_)` are re-sorted by
position and refined by the second `CalculateBeatEnergies` pass, and the
remaining `peaks_ - rcount` slots are zeroed (beat.cc:173-195). -/
def beatDoGroup (peaks : ℕ) (detected : Option (List ExtremumPoint))
    (secondPass : Int → ℚ × ℚ) : List (ℚ × ℚ) :=
  match detected with
  | none => List.replicate peaks (0, 0)
  | some results =>
    let byValue := results.mergeSort (fun f s => s.value ≤ f.value)
    let rcount := min results.length peaks
    let byPos := (byValue.take rcount).mergeSort
      (fun f s => f.position ≤ s.position)
    byPos.map (fun p => secondPass p.position) ++
      List.replicate (peaks - rcount) (0, 0)

/-- The whole of `Beat::Do` over a batch of `groups` input groups: each
group is processed independently (beat.cc:143, the `continue` at
beat.cc:171 moves to the next group). -/
def beatDo (peaks groups : ℕ) (detected : ℕ → Option (List ExtremumPoint))
    (secondPass : ℕ → Int → ℚ × ℚ) : List (List (ℚ × ℚ)) :=
  (List.range groups).map
    (fun g => beatDoGroup peaks (detected g) (secondPass g))

/-! ## RDFT negotiation (`src/transforms/rdft.cc`) -/

/-- `size_t` word size of the target. -/
def wordBits : Nat := 64

/-- `RDFT::OnFormatChanged` (rdft.cc:39-42): output size is
`input_format_->Size() + 2` in `size_t` arithmetic; buffer count is
returned unchanged. -/
def rdftOutputSize (n : Nat) : Nat := (n + 2) % 2 ^ wordBits

/-- `RDFTInverse::OnFormatChanged` (rdft.cc:44-47): output size is
`input_format_->Size() - 2` in `size_t` arithmetic (wrapping subtraction);
buffer count is returned unchanged. -/
def rdftInverseOutputSize (n : Nat) : Nat := (n + 2 ^ wordBits - 2) % 2 ^ wordBits

/-- The buffer-count component of both hooks: `return buffersCount;`. -/
def rdftBuffersCount (buffersCount : Nat) : Nat := buffersCount

/-! ## FilterBank negotiation (`src/transforms/filter_bank.cc`) -/

/-- The spectral bin index `freq * 2 * Size() / SamplingRate()` computed in
`float` and truncated by the conversion to `size_t`
(filter_bank.cc:267-270).  The `float` arithmetic is modelled exactly over
`ℚ`; for the non-negative frequencies admitted by
`FilterBase::ValidateFrequency` the C++ float-to-`size_t` truncation is the
floor. -/
def fbBinIndex (freq : ℚ) (size rate : ℕ) : ℕ :=
  (⌊freq * 2 * (size : ℚ) / (rate : ℚ)⌋).toNat

/-- `FilterBank::OnInputFormatChanged` (filter_bank.cc:266-277): compute
`start` and `finish` bin indices, `length = finish - start` in `size_t`
arithmetic (wrapping), throw `InvalidFrequencyRangeException(fmin, fmax)`
when `length > Size()` or `length <= 0`, otherwise set the output element
size to `number_` and return `buffersCount` unchanged. -/
def fbOnInputFormatChanged (fmin fmax : ℚ) (size rate number count : ℕ) :
    Except (ℚ × ℚ) (ℕ × ℕ) :=
  let start := fbBinIndex fmin size rate
  let finish := fbBinIndex fmax size rate
  let length := (finish + 2 ^ wordBits - start) % 2 ^ wordBits
  if length > size ∨ length = 0 then .error (fmin, fmax)
  else .ok (number, count)

/-! ## Scratch pool acquisition (`src/transforms/diff.cc`,
`src/transforms/filter_bank.cc`)

`Diff::Do` (diff.cc:54-71) and `FilterBank::Do` (filter_bank.cc:279-297)
share the acquisition protocol: `while (!executed) { for (auto& buf :
buffers_) { if (buf.mutex.try_lock()) { …use buf…; buf.mutex.unlock();
executed = true; break; } } }`.  We embed it as a transition system over
`n` worker threads and `k` pool slots, each atomic step being one
`try_lock` attempt (success or failure), one `unlock`, or one invocation
entering its acquisition loop; `try_lock` atomicity is the `std::mutex`
contract. -/

/-- Where one invocation (thread) stands in the protocol. -/
inductive TState (k : ℕ) where
  | outside
  | scanning (next : Fin k)
  | holding (slot : Fin k)
deriving DecidableEq

/-- The shared state: who owns each slot (the mutex), and each thread's
position in the protocol. -/
structure PoolState (n k : ℕ) where
  owner : Fin k → Option (Fin n)
  thread : Fin n → TState k

/-- All slots free, all threads outside their `Do` call. -/
def initPool (n k : ℕ) : PoolState n k :=
  { owner := fun _ => none, thread := fun _ => .outside }

/-- The successor slot in the scan, wrapping around the pool
(the `for` restarts from the first slot after the last). -/
def nextSlot {k : ℕ} (i : Fin k) : Fin k :=
  ⟨((i : ℕ) + 1) % k, Nat.mod_lt _ i.pos⟩

/-- One atomic step of the acquisition protocol. -/
inductive PoolStep (n k : ℕ) : PoolState n k → PoolState n k → Prop where
  | enter (s : PoolState n k) (t : Fin n) (hk : 0 < k) :
      s.thread t = .outside →
      PoolStep n k s
        { s with thread := Function.update s.thread t (.scanning ⟨0, hk⟩) }
  | tryFail (s : PoolState n k) (t : Fin n) (i : Fin k) :
      s.thread t = .scanning i → s.owner i ≠ none →
      PoolStep n k s
        { s with thread := Function.update s.thread t (.scanning (nextSlot i)) }
  | trySucceed (s : PoolState n k) (t : Fin n) (i : Fin k) :
      s.thread t = .scanning i → s.owner i = none →
      PoolStep n k s
        { owner := Function.update s.owner i (some t),
          thread := Function.update s.thread t (.holding i) }
  | release (s : PoolState n k) (t : Fin n) (i : Fin k) :
      s.thread t = .holding i →
      PoolStep n k s
        { owner := Function.update s.owner i none,
          thread := Function.update s.thread t .outside }

/-- The states the protocol can reach from the initial one. -/
inductive PoolReachable (n k : ℕ) : PoolState n k → Prop where
  | init : PoolReachable n k (initPool n k)
  | step {s s' : PoolState n k} :
      PoolReachable n k s → PoolStep n k s s' → PoolReachable n k s'

/-- The protocol invariant: a thread is in its critical section on slot `i`
exactly when it owns slot `i`'s mutex. -/
def PoolInv {n k : ℕ} (s : PoolState n k) : Prop :=
  ∀ (t : Fin n) (i : Fin k), s.thread t = .holding i ↔ s.owner i = some t

theorem poolInv_of_reachable {n k : ℕ} {s : PoolState n k}
    (h : PoolReachable n k s) : PoolInv s := by
  induction h with
  | init =>
    intro t i
    simp [initPool]
  | step hr hstep ih =>
    cases hstep with
    | enter t hk hout =>
      intro t' i
      rcases eq_or_ne t' t with rfl | hne
      · simp only [Function.update_same]
        constructor
        · intro hh; exact absurd hh (by simp)
        · intro hh
          exact absurd ((ih t' i).mpr hh) (by rw [hout]; simp)
      · simp only [Function.update_noteq hne]
        exact ih t' i
    | tryFail t i hscan hown =>
      intro t' j
      rcases eq_or_ne t' t with rfl | hne
      · simp only [Function.update_same]
        constructor
        · intro hh; exact absurd hh (by simp)
        · intro hh
          exact absurd ((ih t' j).mpr hh) (by rw [hscan]; simp)
      · simp only [Function.update_noteq hne]
        exact ih t' j
    | trySucceed t i hscan hfree =>
      intro t' j
      rcases eq_or_ne t' t with rfl | hne
      · simp only [Function.update_same]
        rcases eq_or_ne j i with rfl | hji
        · simp
        · rw [Function.update_noteq hji]
          constructor
          · intro hh
            exact absurd (TState.holding.inj hh).symm hji
          · intro hh
            exact absurd ((ih t' j).mpr hh) (by rw [hscan]; simp)
      · simp only [Function.update_noteq hne]
        rcases eq_or_ne j i with rfl | hji
        · rw [Function.update_same]
          constructor
          · intro hh
            have := (ih t' j).mp hh
            rw [hfree] at this
            exact absurd this (by simp)
          · intro hh
            exact absurd (Option.some.inj hh) (Ne.symm hne)
        · rw [Function.update_noteq hji]
          exact ih t' j
    | release t i hhold =>
      intro t' j
      rcases eq_or_ne t' t with rfl | hne
      · simp only [Function.update_same]
        rcases eq_or_ne j i with rfl | hji
        · rw [Function.update_same]
          constructor
          · intro hh; exact absurd hh (by simp)
          · intro hh; exact absurd hh (by simp)
        · rw [Function.update_noteq hji]
          constructor
          · intro hh; exact absurd hh (by simp)
          · intro hh
            have := (ih t' j).mpr hh
            rw [hhold] at this
            exact absurd (TState.holding.inj this).symm hji
      · simp only [Function.update_noteq hne]
        rcases eq_or_ne j i with rfl | hji
        · rw [Function.update_same]
          constructor
          · intro hh
            have := (ih t' j).mp hh
            rw [(ih t j).mp hhold] at this
            exact absurd (Option.some.inj this).symm hne
          · intro hh; exact absurd hh (by simp)
        · rw [Function.update_noteq hji]
          exact ih t' j

/-! ## Theorems for claims C2, C6, C8, C5, C10 -/

/-- **C2.** For every pair of `BufferFormat` values, `operator==` returns
`true` iff `operator!=` returns `false`: the two independently defined
predicates (wildcard on either side, or textually equal ids) are exact
logical complements. -/
theorem bufferFormat_eq_iff_not_ne (a b : BufferFormat) :
    a.beq b = !(a.bne b) := by
  simp only [BufferFormat.beq, BufferFormat.bne, bne, Bool.not_and, Bool.not_not]
  cases h1 : a.id == kIdentityID <;> cases h2 : b.id == kIdentityID <;>
    cases h3 : a.id == b.id <;> simp

/-- **C6.** `SetSamplingRate(v)` fails exactly when `v` lies outside
`[kMinSamplingRate, kMaxSamplingRate]`; on failure the format state carried
out by the exception is exactly the prior state (no mutation happened before
the throw), and on success the stored rate becomes `v`. -/
theorem setSamplingRate_spec (kMin kMax : Int) (f : BufferFormat) (v : Int) :
    ((∃ e, BufferFormat.setSamplingRate kMin kMax f v = .error e) ↔
      (v < kMin ∨ v > kMax)) ∧
    (∀ e g, BufferFormat.setSamplingRate kMin kMax f v = .error (e, g) →
      g = f) ∧
    (¬(v < kMin ∨ v > kMax) →
      BufferFormat.setSamplingRate kMin kMax f v =
        .ok { f with samplingRate := v }) := by
  unfold BufferFormat.setSamplingRate BufferFormat.validateSamplingRate
  by_cases h : v < kMin ∨ v > kMax
  · have hb : (v < kMin || v > kMax) = true := by
      rcases h with h | h <;> simp [h]
    simp only [hb, if_true]
    refine ⟨⟨fun _ => h, fun _ => ⟨(v, f), rfl⟩⟩, ?_, fun hc => absurd h hc⟩
    intro e g hg
    simp only [Except.error.injEq, Prod.mk.injEq] at hg
    exact hg.2.symm
  · have hb : (v < kMin || v > kMax) = false := by
      push_neg at h
      simp [not_lt.2 h.1, not_lt.2 h.2]
    simp only [hb, Bool.false_eq_true, if_false]
    refine ⟨⟨fun he => ?_, fun hc => absurd hc h⟩,
      fun e g hg => Except.noConfusion hg, fun _ => trivial⟩
    obtain ⟨e, he⟩ := he
    exact Except.noConfusion he

/-- **C8.** A second `Initialize` after a successful first one fails (the
"Already initialized" assertion), and after one successful
`Initialize(n, …)` on a fresh container the element count is exactly `n`. -/
theorem buffersBase_initOnce_spec (n m : Nat) (b : BuffersBase)
    (h : BuffersBase.new.initOnce n = .ok b) :
    b.size = n ∧ b.initOnce m = .error "Already initialized" := by
  unfold BuffersBase.new at h
  unfold BuffersBase.initOnce at h ⊢
  simp only [Bool.false_eq_true, if_false, Except.ok.injEq] at h
  subst h
  exact ⟨rfl, rfl⟩

/-- Witness for C8 at `n = 3`, `m = 5`. -/
theorem buffersBase_initOnce_spec_witness :
    ({ size := 3, initialized := true } : BuffersBase).size = 3 ∧
    ({ size := 3, initialized := true } : BuffersBase).initOnce 5 =
      .error "Already initialized" :=
  buffersBase_initOnce_spec 3 5 { size := 3, initialized := true } rfl

/-- **C5.** `Beat::OnInputFormatChanged` sets the output element size to the
`max_peaks` parameter and returns `buffersCount / bands`; in particular with
`bands = 1`, `max_peaks = 4` and 4 input buffers it yields output size 4 and
output buffer count 4. -/
theorem beat_onInputFormatChanged_spec (s : BeatState) (buffersCount : Nat)
    (hb : s.bands = 1) (hp : s.peaks = 4) (hc : buffersCount = 4) :
    s.onInputFormatChanged buffersCount = (4, 4) ∧
    (∀ t : BeatState, ∀ c : Nat,
      t.onInputFormatChanged c = (t.peaks.toNat, c / t.bands.toNat)) := by
  refine ⟨?_, fun _ _ => rfl⟩
  simp [BeatState.onInputFormatChanged, hb, hp, hc]

/-- Witness for C5: the default `Beat` state (`bands = 1`) with
`max_peaks` set to 4 and 4 input buffers. -/
theorem beat_onInputFormatChanged_spec_witness :
    ({ BeatState.default with peaks := 4 } : BeatState).bands = 1 ∧
    ({ BeatState.default with peaks := 4 } : BeatState).peaks = 4 ∧
    ({ BeatState.default with peaks := 4 } :
        BeatState).onInputFormatChanged 4 = (4, 4) := by
  refine ⟨rfl, rfl, ?_⟩
  exact (beat_onInputFormatChanged_spec _ 4 rfl rfl rfl).1

/-- **C10.** `RDFT` negotiation maps input size `n` to `n + 2`,
`RDFTInverse` maps it to `n - 2`; composing the two (RDFT then RDFTInverse)
over any representable input size yields `n` again, and both hooks return
the buffer count unchanged. -/
theorem rdft_roundtrip (n count : Nat) (h : n < 2 ^ wordBits - 2) :
    rdftOutputSize n = n + 2 ∧
    rdftInverseOutputSize (rdftOutputSize n) = n ∧
    rdftBuffersCount count = count := by
  have hw : (2 : Nat) ^ wordBits = 18446744073709551616 := by decide
  have h2 : n + 2 < 2 ^ wordBits := by omega
  refine ⟨?_, ?_, rfl⟩
  · simpa [rdftOutputSize] using Nat.mod_eq_of_lt h2
  · have h1 : rdftOutputSize n = n + 2 := by
      simpa [rdftOutputSize] using Nat.mod_eq_of_lt h2
    rw [h1]
    unfold rdftInverseOutputSize
    have : n + 2 + 2 ^ wordBits - 2 = n + 2 ^ wordBits := by omega
    rw [this, Nat.add_mod_right]
    exact Nat.mod_eq_of_lt (by omega)

/-- Witness for C10 at `n = 510`, `count = 7`. -/
theorem rdft_roundtrip_witness :
    rdftOutputSize 510 = 512 ∧
    rdftInverseOutputSize (rdftOutputSize 510) = 510 ∧
    rdftBuffersCount 7 = 7 :=
  rdft_roundtrip 510 7 (by norm_num [wordBits])

/-- **C3, counterexample.** With `frequency_min = 300`,
`frequency_max = 8400`, input size 10 and sampling rate 16000, the
configured range does not fit inside half the sampling rate (its width
8100 exceeds 8000, and `frequency_max` itself exceeds 8000), yet
`OnInputFormatChanged` does NOT fail: the truncated bin window is
`[0, 10)`… of length exactly 10 ≤ 10, so it succeeds.  (Every intermediate
`float` value here — 0.375 and 10.5 — is exactly representable in
binary32, so the rational model agrees with the C++.) -/
theorem fb_succeeds_outside_half_rate :
    ((8400 : ℚ) - 300 > (16000 : ℚ) / 2) ∧
    ((8400 : ℚ) > (16000 : ℚ) / 2) ∧
    fbOnInputFormatChanged 300 8400 10 16000 32 7 = .ok (32, 7) := by
  refine ⟨by norm_num, by norm_num, ?_⟩
  have hs : fbBinIndex 300 10 16000 = 0 := by
    norm_num [fbBinIndex]
  have hf : fbBinIndex 8400 10 16000 = 10 := by
    norm_num [fbBinIndex]
    rfl
  unfold fbOnInputFormatChanged
  rw [hs, hf]
  norm_num [wordBits]

/-- **C3, amended.** `FilterBank::OnInputFormatChanged` fails with
`InvalidFrequencyRange` exactly when the truncated spectral bin window —
`start = ⌊fmin·2·size/rate⌋`, `finish = ⌊fmax·2·size/rate⌋` — is empty
(`finish ≤ start`, including the wrap-around when `fmax < fmin`) or wider
than the input size (`finish - start > size`); otherwise it succeeds,
sets the output element size to the configured filter number and returns
the input buffer count unchanged. -/
theorem fb_onInputFormatChanged_spec (fmin fmax : ℚ)
    (size rate number count : ℕ)
    (hs : fbBinIndex fmin size rate + size < 2 ^ wordBits)
    (hf : fbBinIndex fmax size rate < 2 ^ wordBits) :
    (fbOnInputFormatChanged fmin fmax size rate number count =
        .error (fmin, fmax) ↔
      (fbBinIndex fmax size rate ≤ fbBinIndex fmin size rate ∨
        fbBinIndex fmax size rate - fbBinIndex fmin size rate > size)) ∧
    (¬(fbBinIndex fmax size rate ≤ fbBinIndex fmin size rate ∨
        fbBinIndex fmax size rate - fbBinIndex fmin size rate > size) →
      fbOnInputFormatChanged fmin fmax size rate number count =
        .ok (number, count)) := by
  have h2 : (2 : ℕ) ^ wordBits = 18446744073709551616 := by
    norm_num [wordBits]
  rw [h2] at hs hf
  unfold fbOnInputFormatChanged
  simp only [h2]
  set a := fbBinIndex fmin size rate with ha
  set b := fbBinIndex fmax size rate with hb
  have hkey : (size < (b + 18446744073709551616 - a) % 18446744073709551616 ∨
      (b + 18446744073709551616 - a) % 18446744073709551616 = 0) ↔
      (b ≤ a ∨ b - a > size) := by
    omega
  by_cases hcond : size < (b + 18446744073709551616 - a) % 18446744073709551616 ∨
      (b + 18446744073709551616 - a) % 18446744073709551616 = 0
  · rw [if_pos hcond]
    exact ⟨iff_of_true rfl (hkey.mp hcond),
      fun hn => absurd (hkey.mp hcond) hn⟩
  · rw [if_neg hcond]
    exact ⟨⟨fun he => Except.noConfusion he,
      fun hc => absurd (hkey.mpr hc) hcond⟩, fun _ => rfl⟩

/-- Witness for C3 (amended) at `fmin = 300`, `fmax = 7000`, size 10,
rate 16000, 32 filters, 7 buffers (bin window `[0, 8)`: success). -/
theorem fb_onInputFormatChanged_spec_witness :
    fbBinIndex 300 10 16000 + 10 < 2 ^ wordBits ∧
    fbBinIndex 7000 10 16000 < 2 ^ wordBits ∧
    ((fbOnInputFormatChanged 300 7000 10 16000 32 7 = .error (300, 7000) ↔
      (fbBinIndex 7000 10 16000 ≤ fbBinIndex 300 10 16000 ∨
        fbBinIndex 7000 10 16000 - fbBinIndex 300 10 16000 > 10)) ∧
    (¬(fbBinIndex 7000 10 16000 ≤ fbBinIndex 300 10 16000 ∨
        fbBinIndex 7000 10 16000 - fbBinIndex 300 10 16000 > 10) →
      fbOnInputFormatChanged 300 7000 10 16000 32 7 = .ok (32, 7))) := by
  have hs : fbBinIndex 300 10 16000 = 0 := by
    norm_num [fbBinIndex]
  have hf : fbBinIndex 7000 10 16000 = 8 := by
    norm_num [fbBinIndex]
    rfl
  refine ⟨?_, ?_, ?_⟩
  · rw [hs]; norm_num [wordBits]
  · rw [hf]; norm_num [wordBits]
  · exact fb_onInputFormatChanged_spec 300 7000 10 16000 32 7
      (by rw [hs]; norm_num [wordBits]) (by rw [hf]; norm_num [wordBits])

/-- **C4.** The `Diff` scalar kernel: `out[i] = a[i+1] - a[i]` for every
`i < n - 1` and `out[n-1] = a[0] - a[n-1]` (wraparound); the rectified
kernel replaces each negative element of that result by `0` and keeps every
non-negative element unchanged. -/
theorem diff_doScalar_spec (input : ℕ → ℚ) (n : ℕ) (h : 0 < n) :
    (∀ i, i < n - 1 → Diff.doScalar input n i = input (i + 1) - input i) ∧
    Diff.doScalar input n (n - 1) = input 0 - input (n - 1) ∧
    (∀ i, i < n →
      Diff.doRectifyScalar input n i =
        if Diff.doScalar input n i < 0 then 0
        else Diff.doScalar input n i) := by
  refine ⟨fun i hi => ?_, ?_, fun i hi => ?_⟩
  · simp [Diff.doScalar, hi]
  · simp [Diff.doScalar]
  · by_cases hc : i < n - 1 <;>
      simp [Diff.doScalar, Diff.doRectifyScalar, hc]

/-- A concrete input for the C4 witness: the array `[3, 1, 2]`. -/
def diffSampleInput : ℕ → ℚ := fun j => ([3, 1, 2] : List ℚ).getD j 0

/-- Witness for C4 on the array `[3, 1, 2]` of length `3`. -/
theorem diff_doScalar_spec_witness :
    0 < 3 ∧
    ((∀ i, i < 3 - 1 →
        Diff.doScalar diffSampleInput 3 i =
          diffSampleInput (i + 1) - diffSampleInput i) ∧
      Diff.doScalar diffSampleInput 3 (3 - 1) =
        diffSampleInput 0 - diffSampleInput (3 - 1) ∧
      (∀ i, i < 3 →
        Diff.doRectifyScalar diffSampleInput 3 i =
          if Diff.doScalar diffSampleInput 3 i < 0 then 0
          else Diff.doScalar diffSampleInput 3 i)) :=
  ⟨by decide, diff_doScalar_spec diffSampleInput 3 (by decide)⟩

/-- **C1, counterexample.** Setting Mean's `"types"` to `"geometric bogus"`
from the default state is rejected (the setter returns `false`), yet the
stored state is NOT what it was before the call: `"geometric"` was inserted
into `types_` before the unknown token `"bogus"` was reached. -/
theorem mean_types_setter_mutates_on_failure :
    (meanSetTypes meanDefault "geometric bogus").1 = false ∧
    (meanSetTypes meanDefault "geometric bogus").2 ≠ meanDefault := by
  decide

/-- On loop failure, the stored type set is the original plus the mean types
of the tokens preceding the first unknown one. -/
theorem meanSetTypesLoop_failure (toks : List String) :
    ∀ s : MeanState, (meanSetTypesLoop s toks).1 = false →
      (meanSetTypesLoop s toks).2.types =
        s.types ∪ (mappedPrefix toks).toFinset := by
  induction toks with
  | nil => intro s h; simp [meanSetTypesLoop] at h
  | cons tok rest ih =>
    intro s h
    cases hm : meanTypesMap tok with
    | none =>
      simp only [meanSetTypesLoop, hm] at h ⊢
      simp [mappedPrefix, hm]
    | some t =>
      simp only [meanSetTypesLoop, hm] at h ⊢
      have := ih ⟨insert t s.types⟩ h
      rw [this]
      have hpre : mappedPrefix (tok :: rest) = t :: mappedPrefix rest := by
        simp [mappedPrefix, List.takeWhile, hm]
      simp only [hpre] at *
      ext x
      simp [Finset.mem_union, Finset.mem_insert, List.mem_toFinset]

/-- **C1, amended.** Beat's `"max_peaks"` setter never mutates the state on
failure (parse failure or a value outside `[1, 10]`, in particular `"11"`).
Mean's `"types"` setter leaves the state unchanged when the shape regex
rejects the value, but when the regex matches and a later token is unknown
it fails with the mean types of the tokens preceding the first unknown one
already inserted into the stored set. -/
theorem param_setter_failure_spec (s : BeatState) (m : MeanState)
    (value : String) :
    (∀ e g, beatSetMaxPeaks s value = .error (e, g) → g = s) ∧
    (∀ st, beatSetMaxPeaks s value = .ok (false, st) → st = s) ∧
    beatSetMaxPeaks s "11" = .ok (false, s) ∧
    (meanAllRegexMatches value = false →
      meanSetTypes m value = (false, m)) ∧
    (meanAllRegexMatches value = true →
      (meanSetTypes m value).1 = false →
      (meanSetTypes m value).2.types =
        m.types ∪ (mappedPrefix (meanTokens value)).toFinset) := by
  refine ⟨?_, ?_, ?_, ?_, ?_⟩
  · intro e g hg
    unfold beatSetMaxPeaks at hg
    cases hp : parseInt value with
    | none =>
      rw [hp] at hg
      simp only [Except.error.injEq, Prod.mk.injEq] at hg
      exact hg.2.symm
    | some iv =>
      rw [hp] at hg
      by_cases hr : (iv < 1 || iv > 10) = true <;> simp [hr] at hg
  · intro st hst
    unfold beatSetMaxPeaks at hst
    cases hp : parseInt value with
    | none => rw [hp] at hst; exact Except.noConfusion hst
    | some iv =>
      rw [hp] at hst
      by_cases hr : (iv < 1 || iv > 10) = true
      · simp only [hr, if_true, Except.ok.injEq, Prod.mk.injEq] at hst
        exact hst.2.symm
      · simp [hr] at hst
  · have h11 : parseInt "11" = some 11 := by decide
    unfold beatSetMaxPeaks
    rw [h11]
    rfl
  · intro hreg
    unfold meanSetTypes
    simp [hreg]
  · intro hreg hfail
    unfold meanSetTypes at hfail ⊢
    simp only [hreg, Bool.not_true, Bool.false_eq_true, if_false] at hfail ⊢
    exact meanSetTypesLoop_failure (meanTokens value) m hfail

/-- **C9.** In every reachable state of the scratch-pool acquisition
protocol (each invocation acquires a slot only by a successful non-blocking
`try_lock`, uses it, and releases it before finishing), no two invocations
hold the same pool slot simultaneously; moreover, with a pool of at least
as many slots as there are concurrent invocations (`n ≤ k`), an invocation
still scanning always has a free slot left to succeed on — the busy-retry
loop cannot be starved by slot exhaustion. -/
theorem scratch_pool_mutual_exclusion (n k : ℕ) (s : PoolState n k)
    (hr : PoolReachable n k s) :
    (∀ (t1 t2 : Fin n) (slot : Fin k),
      s.thread t1 = .holding slot → s.thread t2 = .holding slot → t1 = t2) ∧
    (n ≤ k → ∀ (t : Fin n) (i : Fin k), s.thread t = .scanning i →
      ∃ free : Fin k, s.owner free = none) := by
  have hinv := poolInv_of_reachable hr
  constructor
  · intro t1 t2 slot h1 h2
    have ho1 := (hinv t1 slot).mp h1
    have ho2 := (hinv t2 slot).mp h2
    rw [ho1] at ho2
    exact Option.some.inj ho2
  · intro hnk t i hscan
    by_contra hno
    push_neg at hno
    have hex : ∀ j : Fin k, ∃ t' : Fin n, s.owner j = some t' := by
      intro j
      cases hj : s.owner j with
      | none => exact absurd hj (hno j)
      | some t' => exact ⟨t', rfl⟩
    choose f hf using hex
    have hinj : Function.Injective f := by
      intro a b hab
      have ha := (hinv (f a) a).mpr (hf a)
      have hb := (hinv (f b) b).mpr (hf b)
      rw [hab] at ha
      rw [ha] at hb
      exact TState.holding.inj hb
    have hcard : Fintype.card (Fin k) = Fintype.card (Fin n) := by
      have hle := Fintype.card_le_of_injective f hinj
      simp only [Fintype.card_fin] at hle ⊢
      omega
    have hsurj : Function.Surjective f :=
      ((Fintype.bijective_iff_injective_and_card f).mpr ⟨hinj, hcard⟩).2
    obtain ⟨j, hj⟩ := hsurj t
    have hth := (hinv (f j) j).mpr (hf j)
    rw [hj, hscan] at hth
    exact absurd hth (by simp)

/-- Witness for C9: the reachable state of a 2-thread, 2-slot pool in which
thread 0 has entered its acquisition loop. -/
def poolDemo : PoolState 2 2 :=
  { initPool 2 2 with
    thread := Function.update (initPool 2 2).thread 0
      (TState.scanning ⟨0, by norm_num⟩) }

/-- Witness for C9 at `n = k = 2` in the state `poolDemo`, reached from the
initial state by one `enter` step. -/
theorem scratch_pool_mutual_exclusion_witness :
    (∀ (t1 t2 : Fin 2) (slot : Fin 2),
      poolDemo.thread t1 = .holding slot →
      poolDemo.thread t2 = .holding slot → t1 = t2) ∧
    (2 ≤ 2 → ∀ (t : Fin 2) (i : Fin 2),
      poolDemo.thread t = .scanning i →
      ∃ free : Fin 2, poolDemo.owner free = none) :=
  scratch_pool_mutual_exclusion 2 2 poolDemo
    (PoolReachable.step PoolReachable.init
      (PoolStep.enter (initPool 2 2) 0 (by norm_num) rfl))

/-- **C7.** When `detect_peaks` yields a null result array for a group,
`Beat::Do` raises no error: that group's `max_peaks` output slots are all
`(0, 0)`, the batch still has every group's output, and every other group
is computed exactly as it would be on its own. -/
theorem beat_do_no_peaks_fallback (peaks groups : ℕ)
    (detected : ℕ → Option (List ExtremumPoint))
    (secondPass : ℕ → Int → ℚ × ℚ) (g : ℕ) (hg : g < groups)
    (hnone : detected g = none) :
    (beatDo peaks groups detected secondPass).length = groups ∧
    (beatDo peaks groups detected secondPass)[g]? =
      some (List.replicate peaks (0, 0)) ∧
    (∀ g2, g2 < groups →
      (beatDo peaks groups detected secondPass)[g2]? =
        some (beatDoGroup peaks (detected g2) (secondPass g2))) := by
  refine ⟨by simp [beatDo], ?_, fun g2 hg2 => ?_⟩
  · simp [beatDo, List.getElem?_map, List.getElem?_range, hg, hnone,
      beatDoGroup]
  · simp [beatDo, List.getElem?_map, List.getElem?_range, hg2]

/-- A concrete detector oracle for the C7 witness: one peak in group 0,
none in group 1. -/
def demoDetected : ℕ → Option (List ExtremumPoint) :=
  fun g => if g = 0 then some [ExtremumPoint.mk 5 1] else none

/-- A concrete second-pass oracle for the C7 witness. -/
def demoSecondPass : ℕ → Int → ℚ × ℚ := fun _ p => ((p : ℚ), 1)

/-- Witness for C7: two groups of three peaks, the detector finding one
peak in group 0 and none in group 1. -/
theorem beat_do_no_peaks_fallback_witness :
    (1 : ℕ) < 2 ∧ demoDetected 1 = none ∧
    ((beatDo 3 2 demoDetected demoSecondPass).length = 2 ∧
      (beatDo 3 2 demoDetected demoSecondPass)[1]? =
        some (List.replicate 3 (0, 0)) ∧
      (∀ g2, g2 < 2 →
        (beatDo 3 2 demoDetected demoSecondPass)[g2]? =
          some (beatDoGroup 3 (demoDetected g2) (demoSecondPass g2)))) :=
  ⟨by decide, rfl,
    beat_do_no_peaks_fallback 3 2 demoDetected demoSecondPass 1
      (by decide) rfl⟩

/-- Witness for C1 (amended) at Mean state `{arithmetic}` and value
`"geometric bogus"`. -/
theorem param_setter_failure_spec_witness :
    (meanSetTypes meanDefault "geometric bogus").1 = false ∧
    (meanSetTypes meanDefault "geometric bogus").2.types =
      meanDefault.types ∪
        (mappedPrefix (meanTokens "geometric bogus")).toFinset :=
  ⟨by decide,
    (param_setter_failure_spec BeatState.default meanDefault
      "geometric bogus").2.2.2.2 (by decide) (by decide)⟩

end SoundFeatureExtraction
